import Mathlib

/-!
Verification of the schema-resolution and reference-inlining engine of the
`resolver` package (files `discovery.go` and `definitions.go`): two resolvers
(discovery-backed and static-table) that share the recursive `populateRefs`
reference inliner.

The Go data is embedded shallowly: `spec.Schema` becomes an inductive tree,
Go maps become association lists (iteration order becomes list order), Go
`error` values become a message plus an optional wrapped cause, and dynamic
`interface{}` extension payloads become a closed JSON-like value type with an
extra constructor for Go values that `encoding/json` cannot serialize.
`populateRefs` mutates its argument in place in Go; here it returns the
rewritten tree, and a fuel argument bounds the recursion depth, so that a run
which exhausts every fuel models a non-terminating Go run.
-/

set_option autoImplicit false

/-- Model of `schema.GroupVersionKind` from apimachinery: a triple of strings
identifying a resource type; equality is field-wise. -/
structure GVK where
  group : String
  version : String
  kind : String
  deriving DecidableEq

/-- Model of `GroupVersion.String()`: `"<group>/<version>"`, or just the
version when the group is empty. -/
def groupVersionString (gvk : GVK) : String :=
  if gvk.group = "" then gvk.version else gvk.group ++ "/" ++ gvk.version

/-- Model of `GroupVersionKind.String()`:
`"<group>/<version>, Kind=<kind>"`. -/
def gvkString (gvk : GVK) : String :=
  gvk.group ++ "/" ++ gvk.version ++ ", Kind=" ++ gvk.kind

/-- Model of a Go `error` value: the full text produced by `Error()` together
with the error wrapped via the `%w` verb of `fmt.Errorf`, if any. -/
inductive GoErr where
  | base (msg : String)
  | wrap (msg : String) (cause : GoErr)
  deriving DecidableEq

/-- The message of a Go error (what `Error()` returns). -/
def GoErr.message : GoErr → String
  | .base m => m
  | .wrap m _ => m

/-- Model of `errors.Is`: the target equals the error itself or an error
somewhere down its wrapping chain. -/
def errorsIs : GoErr → GoErr → Bool
  | .base m, t => GoErr.base m == t
  | .wrap m c, t => (GoErr.wrap m c == t) || errorsIs c t

/-- The sentinel declared in the resolver package:
`ErrSchemaNotFound = errors.New("schema not found")`. -/
def ErrSchemaNotFound : GoErr := .base "schema not found"

/-- Model of `fmt.Errorf("<pre>%w", cause)`: the message is the format text
followed by the cause's message, and the cause is recorded as wrapped. -/
def wrapErr (pre : String) (cause : GoErr) : GoErr := .wrap (pre ++ cause.message) cause

/-- Errors of the embedded functions. `goErr` carries the Go error value the
source returns; `noFuel` is the embedding's marker for a recursion exceeding
the supplied fuel — a Go run that returns `.error .noFuel` for every fuel is a
run that does not terminate. -/
inductive PErr where
  | goErr (e : GoErr)
  | noFuel
  deriving DecidableEq

/-- Model of a dynamically typed Go value held in `spec.Extensions`
(`map[string]interface{}`). JSON-decoded payloads use the first six
constructors; `foreign` stands for any other Go value, one that
`encoding/json` cannot marshal and that fails every type assertion the
resolver performs. -/
inductive ExtValue where
  | null
  | boolVal (b : Bool)
  | num (n : Int)
  | str (s : String)
  | arr (elems : List ExtValue)
  | obj (fields : List (String × ExtValue))
  | foreign

/-- Model of `spec.Schema` restricted to the fields the resolver reads:
`Ref` (as the URL string when non-nil), `Description`, `Properties`,
`AdditionalProperties` (a `*SchemaOrBool`, modelled as `Allows` paired with
the optional `Schema` pointer), `Items` (a `*SchemaOrArray`, modelled as the
optional `Schema` pointer paired with the `Schemas` list), `AllOf`, and
`Extensions`. -/
inductive Schema where
  | mk (ref : Option String)
       (description : Option String)
       (properties : List (String × Schema))
       (additionalProperties : Option (Bool × Option Schema))
       (items : Option (Option Schema × List Schema))
       (allOf : List Schema)
       (extensions : List (String × ExtValue))

/-- The `Ref` field, as the reference string when `Ref.GetURL()` is non-nil. -/
def Schema.ref : Schema → Option String
  | .mk r _ _ _ _ _ _ => r

/-- The `Description` field. -/
def Schema.description : Schema → Option String
  | .mk _ d _ _ _ _ _ => d

/-- The `Properties` field. -/
def Schema.properties : Schema → List (String × Schema)
  | .mk _ _ props _ _ _ _ => props

/-- The `AdditionalProperties` field. -/
def Schema.additionalProperties : Schema → Option (Bool × Option Schema)
  | .mk _ _ _ aP _ _ _ => aP

/-- The `Items` field. -/
def Schema.items : Schema → Option (Option Schema × List Schema)
  | .mk _ _ _ _ it _ _ => it

/-- The `AllOf` field. -/
def Schema.allOf : Schema → List Schema
  | .mk _ _ _ _ _ aO _ => aO

/-- The `Extensions` field. -/
def Schema.extensions : Schema → List (String × ExtValue)
  | .mk _ _ _ _ _ _ ex => ex

mutual

/-- Shallow embedding of `refOf` (discovery.go lines 104-117): a schema is a
reference if its own `Ref` holds a URL, or, failing that, if some member of
its `AllOf` list recursively is one — the first such member wins. -/
def refOf : Schema → Option String
  | .mk r _ _ _ _ aO _ =>
    match r with
    | some s => some s
    | none => refOfList aO

/-- The `AllOf` loop of `refOf`: return the first reference found among the
members. -/
def refOfList : List Schema → Option String
  | [] => none
  | s :: rest =>
    match refOf s with
    | some r => some r
    | none => refOfList rest

end

/-- The properties loop of `populateRefs`: apply the inliner `f` to every
property schema and write the result back under the original key, stopping at
the first error. -/
def inlineProps (f : Schema → Except PErr Schema) :
    List (String × Schema) → Except PErr (List (String × Schema))
  | [] => .ok []
  | (n, p) :: rest =>
    match f p with
    | .error e => .error e
    | .ok p2 =>
      match inlineProps f rest with
      | .error e => .error e
      | .ok rest2 => .ok ((n, p2) :: rest2)

/-- The additional-properties step of `populateRefs`: recurse exactly when the
`AdditionalProperties` pointer and its `Schema` field are both non-nil. -/
def inlineAddProps (f : Schema → Except PErr Schema) :
    Option (Bool × Option Schema) → Except PErr (Option (Bool × Option Schema))
  | some (b, some sub) =>
    match f sub with
    | .error e => .error e
    | .ok sub2 => .ok (some (b, some sub2))
  | x => .ok x

/-- The items step of `populateRefs`: recurse into `Items.Schema` exactly when
the `Items` pointer and its `Schema` field are both non-nil; the `Schemas`
list is left untouched, as in the source. -/
def inlineItems (f : Schema → Except PErr Schema) :
    Option (Option Schema × List Schema) → Except PErr (Option (Option Schema × List Schema))
  | some (some sub, ls) =>
    match f sub with
    | .error e => .error e
    | .ok sub2 => .ok (some (some sub2, ls))
  | x => .ok x

/-- The body of `populateRefs` after the reference step: inline inside the
properties, the additional-properties schema and the items schema, in source
order. `AllOf` members and the extensions are not traversed. -/
def inlineChildren (f : Schema → Except PErr Schema) : Schema → Except PErr Schema
  | .mk r d props aP it aO ex =>
    match inlineProps f props with
    | .error e => .error e
    | .ok props2 =>
      match inlineAddProps f aP with
      | .error e => .error e
      | .ok aP2 =>
        match inlineItems f it with
        | .error e => .error e
        | .ok it2 => .ok (.mk r d props2 aP2 it2 aO ex)

/-- Shallow embedding of `populateRefs` (discovery.go lines 70-102). When the
node is a reference (per `refOf`), it is looked up once and the whole node is
replaced by the target — the target's own reference indicator is not
re-examined — and then the children of the (possibly replaced) node are
inlined recursively. A lookup miss yields the Go error
`internal error: cannot resolve Ref %q: %w ErrSchemaNotFound`. The fuel
bounds the recursion depth, which is unbounded in Go. -/
def populateRefs (schemaOf : String → Option Schema) : Nat → Schema → Except PErr Schema
  | 0, _ => .error .noFuel
  | fuel+1, s =>
    match refOf s with
    | some r =>
      match schemaOf r with
      | none =>
        .error (.goErr (wrapErr ("internal error: cannot resolve Ref \"" ++ r ++ "\": ")
          ErrSchemaNotFound))
      | some resolved => inlineChildren (fun c => populateRefs schemaOf fuel c) resolved
    | none => inlineChildren (fun c => populateRefs schemaOf fuel c) s

/-- The extension key `x-kubernetes-group-version-kind` (discovery.go). -/
def extGVK : String := "x-kubernetes-group-version-kind"

/-- One element of the `extensionsToGVKs` loop (definitions.go lines 116-135):
type-assert the element to a map and each of its `group`, `version` and `kind`
entries to a string; any failed assertion fails the element. -/
def gvkOfExtObj : ExtValue → Option GVK
  | .obj fields =>
    match List.lookup "group" fields with
    | some (.str g) =>
      (match List.lookup "version" fields with
       | some (.str v) =>
         (match List.lookup "kind" fields with
          | some (.str k) => some ⟨g, v, k⟩
          | _ => none)
       | _ => none)
    | _ => none
  | _ => none

/-- The loop of `extensionsToGVKs`: convert every element, failing the whole
list on the first malformed element (the Go loop returns `nil` there). -/
def gvkListOfExt : List ExtValue → Option (List GVK)
  | [] => some []
  | x :: rest =>
    match gvkOfExtObj x with
    | none => none
    | some g =>
      match gvkListOfExt rest with
      | none => none
      | some gs => some (g :: gs)

/-- Shallow embedding of `extensionsToGVKs` (definitions.go lines 106-141):
look up the extension key; a missing key, a value that is not a `[]any`, or
any element failing the shape check all yield the empty list. -/
def extensionsToGVKs (extensions : List (String × ExtValue)) : List GVK :=
  match List.lookup extGVK extensions with
  | none => []
  | some v =>
    match v with
    | .arr gvks =>
      (match gvkListOfExt gvks with
       | none => []
       | some result => result)
    | _ => []

mutual

/-- Whether `json.Marshal` accepts the value: everything except a `foreign`
Go value, recursively. -/
def extValueSerializable : ExtValue → Bool
  | .null => true
  | .boolVal _ => true
  | .num _ => true
  | .str _ => true
  | .arr xs => extValueListSerializable xs
  | .obj fs => extValueFieldsSerializable fs
  | .foreign => false

/-- `extValueSerializable` over an array's elements. -/
def extValueListSerializable : List ExtValue → Bool
  | [] => true
  | x :: rest => extValueSerializable x && extValueListSerializable rest

/-- `extValueSerializable` over an object's field values. -/
def extValueFieldsSerializable : List (String × ExtValue) → Bool
  | [] => true
  | (_, v) :: rest => extValueSerializable v && extValueFieldsSerializable rest

end

/-- Model of `json.Unmarshal` of one JSON value into a Go `string` field:
an absent or null value leaves the zero value `""`, a string is taken as-is,
and any other value is a type error. -/
def unmarshalStringField (fields : List (String × ExtValue)) (key : String) :
    Except GoErr String :=
  match List.lookup key fields with
  | none => .ok ""
  | some .null => .ok ""
  | some (.str s) => .ok s
  | some _ => .error (.base ("json: cannot unmarshal value into Go struct field GroupVersionKind." ++ key ++ " of type string"))

/-- Model of `json.Unmarshal` of one JSON value into a `schema.GroupVersionKind`:
the value must be an object; unknown keys are ignored and missing keys keep
their zero value. -/
def unmarshalGVKElem : ExtValue → Except GoErr GVK
  | .obj fields =>
    match unmarshalStringField fields "group" with
    | .error e => .error e
    | .ok g =>
      match unmarshalStringField fields "version" with
      | .error e => .error e
      | .ok v =>
        match unmarshalStringField fields "kind" with
        | .error e => .error e
        | .ok k => .ok ⟨g, v, k⟩
  | _ => .error (.base "json: cannot unmarshal value into Go value of type schema.GroupVersionKind")

/-- The elements loop of unmarshalling into `[]schema.GroupVersionKind`. -/
def unmarshalGVKElems : List ExtValue → Except GoErr (List GVK)
  | [] => .ok []
  | x :: rest =>
    match unmarshalGVKElem x with
    | .error e => .error e
    | .ok g =>
      match unmarshalGVKElems rest with
      | .error e => .error e
      | .ok gs => .ok (g :: gs)

/-- Model of `json.Unmarshal` of a JSON value into `[]schema.GroupVersionKind`:
null leaves the nil slice, an array unmarshals element-wise, anything else is
a type error. -/
def unmarshalGVKList : ExtValue → Except GoErr (List GVK)
  | .null => .ok []
  | .arr xs => unmarshalGVKElems xs
  | _ => .error (.base "json: cannot unmarshal value into Go value of type []schema.GroupVersionKind")

/-- Model of `s.Extensions.GetObject(extGVK, &gvks)` as called by
`resolveType` (discovery.go line 122): an absent key leaves the nil slice and
returns no error; otherwise the stored value is marshalled to JSON and
unmarshalled into `[]schema.GroupVersionKind`, and either step's failure is
returned. -/
def getObjectGVKs (extensions : List (String × ExtValue)) : Except GoErr (List GVK) :=
  match List.lookup extGVK extensions with
  | none => .ok []
  | some v =>
    if extValueSerializable v then unmarshalGVKList v
    else .error (.base "json: unsupported type")

/-- Model of the decoded `schemaResponse` (discovery.go lines 144-148): the
`components.schemas` table of the fetched OpenAPI document. -/
structure SchemaResponse where
  schemas : List (String × Schema)

/-- The loop of `resolveType` over the components table, in iteration order:
a `GetObject` failure aborts the whole scan; otherwise the first schema whose
extracted GVK list contains the requested GVK is returned. -/
def resolveTypeIn (gvk : GVK) : List (String × Schema) → Except GoErr Schema
  | [] =>
    .error (wrapErr ("cannot resolve group version kind \"" ++ gvkString gvk ++ "\": ")
      ErrSchemaNotFound)
  | (_, s) :: rest =>
    match getObjectGVKs s.extensions with
    | .error e => .error e
    | .ok gvks => if gvk ∈ gvks then .ok s else resolveTypeIn gvk rest

/-- Shallow embedding of `resolveType` (discovery.go lines 119-133). -/
def resolveType (resp : SchemaResponse) (gvk : GVK) : Except GoErr Schema :=
  resolveTypeIn gvk resp.schemas

/-- Shallow embedding of `resourcePathFromGV` (discovery.go lines 135-142). -/
def resourcePathFromGV (gvk : GVK) : String :=
  if gvk.group = "" then "api/" ++ gvk.version else "apis/" ++ gvk.group ++ "/" ++ gvk.version

/-- The constant named `refPrefix` in discovery.go. -/
def refPfx : String := "#/components/schemas/"

/-- Model of `strings.TrimPrefix`, working on the character lists underlying
the strings: remove `pfx` from the front of `s` exactly when `s` starts with
it, otherwise return `s` unchanged. -/
def goTrimPfx (s pfx : String) : String :=
  if pfx.data.isPrefixOf s.data then ⟨s.data.drop pfx.data.length⟩ else s

/-- The reference-lookup closure of `ClientDiscoveryResolver.ResolveSchema`
(discovery.go lines 60-63): strip the `#/components/schemas/` prefix and look
the rest up in the document's own components table. -/
def discoverySchemaOf (resp : SchemaResponse) (ref : String) : Option Schema :=
  List.lookup (goTrimPfx ref refPfx) resp.schemas

/-- Model of the discovery transport as consumed by the resolver: the result
of `Discovery.OpenAPIV3().Paths()`, and per path the result of fetching the
path's document and JSON-decoding it into a `schemaResponse` (either of which
can fail with a Go error that is returned as-is). -/
structure ClientDiscoveryResolver where
  pathsResult : Except GoErr (List (String × Except GoErr SchemaResponse))

/-- Shallow embedding of `ClientDiscoveryResolver.ResolveSchema`
(discovery.go lines 37-68): list the paths, locate the group/version's
resource path, fetch and decode its document, locate the schema for the GVK,
then inline references with the document-local lookup closure. -/
def ClientDiscoveryResolver.ResolveSchema (r : ClientDiscoveryResolver) (fuel : Nat)
    (gvk : GVK) : Except PErr Schema :=
  match r.pathsResult with
  | .error e => .error (.goErr e)
  | .ok paths =>
    match List.lookup (resourcePathFromGV gvk) paths with
    | none =>
      .error (.goErr (wrapErr ("cannot resolve group version \"" ++ groupVersionString gvk ++ "\": ")
        ErrSchemaNotFound))
    | some fetched =>
      match fetched with
      | .error e => .error (.goErr e)
      | .ok resp =>
        match resolveType resp gvk with
        | .error e => .error (.goErr e)
        | .ok s => populateRefs (discoverySchemaOf resp) fuel s

mutual

/-- Whether `json.Marshal` accepts the whole schema tree: every extension
value reachable anywhere in it (through properties, additional properties,
items, and allOf) is serializable. -/
def schemaSerializable : Schema → Bool
  | .mk _ _ props aP it aO ex =>
    schemaPropsSerializable props &&
    (match aP with
     | some (_, os) => optSchemaSerializable os
     | none => true) &&
    (match it with
     | some (os, ls) => optSchemaSerializable os && schemaListSerializable ls
     | none => true) &&
    schemaListSerializable aO &&
    extValueFieldsSerializable ex

/-- `schemaSerializable` over the properties table. -/
def schemaPropsSerializable : List (String × Schema) → Bool
  | [] => true
  | (_, s) :: rest => schemaSerializable s && schemaPropsSerializable rest

/-- `schemaSerializable` over an optional nested schema. -/
def optSchemaSerializable : Option Schema → Bool
  | none => true
  | some s => schemaSerializable s

/-- `schemaSerializable` over a list of nested schemas. -/
def schemaListSerializable : List Schema → Bool
  | [] => true
  | s :: rest => schemaSerializable s && schemaListSerializable rest

end

/-- Shallow embedding of `deepCopy` (definitions.go lines 93-104): a
`json.Marshal` / `json.Unmarshal` round trip. On this value model the round
trip reproduces the tree exactly, and it fails precisely when an extension
somewhere in the tree holds a Go value that `json.Marshal` rejects. -/
def deepCopy (s : Schema) : Except GoErr Schema :=
  if schemaSerializable s then .ok s else .error (.base "json: unsupported type")

/-- Model of `common.OpenAPIDefinition`: a schema plus its dependency names. -/
structure OpenAPIDefinition where
  schema : Schema
  dependencies : List String

/-- Model of `DefinitionsSchemaResolver`: the definition table and the
GVK-to-schema index built at construction time. -/
structure DefinitionsSchemaResolver where
  defs : List (String × OpenAPIDefinition)
  gvkToSchema : GVK → Option Schema

/-- One write `gvkToSchema[gvk] = <schema>` into the index, overwriting any
earlier entry for the same GVK. -/
def insertGVK (m : GVK → Option Schema) (gvk : GVK) (s : Schema) : GVK → Option Schema :=
  fun g => if g = gvk then some s else m g

/-- The double loop of `NewDefinitionsSchemaResolver` building the GVK index:
for each definition in iteration order, obtain its extensions through the
namer, extract its GVKs, and record each against that definition's schema. -/
def buildGVKIndex (namer : String → String × List (String × ExtValue))
    (defs : List (String × OpenAPIDefinition)) (m : GVK → Option Schema) :
    GVK → Option Schema :=
  defs.foldl
    (fun m2 nd =>
      (extensionsToGVKs (namer nd.1).2).foldl (fun m3 gvk => insertGVK m3 gvk nd.2.schema) m2)
    m

/-- Shallow embedding of `NewDefinitionsSchemaResolver` (definitions.go lines
41-58). The Go map `defs` with its unspecified iteration order is modelled as
an association list iterated front to back. The naming scheme
(`openapi.NewDefinitionNamer(scheme)`, an external collaborator of this
package) is injected as `namer`, returning per definition name the display
name together with the vendor extensions; only the extensions are used, as in
`_, e := namer.GetDefinitionName(name)`. -/
def NewDefinitionsSchemaResolver (namer : String → String × List (String × ExtValue))
    (defs : List (String × OpenAPIDefinition)) : DefinitionsSchemaResolver :=
  { defs := defs
    gvkToSchema := buildGVKIndex namer defs (fun _ => none) }

/-- The reference-lookup closure of `DefinitionsSchemaResolver.ResolveSchema`
(definitions.go lines 69-80): find the definition by the ref string and
return a deep copy of its schema; a missing entry and a failed copy both come
back as a lookup miss. -/
def staticSchemaOf (d : DefinitionsSchemaResolver) (ref : String) : Option Schema :=
  match List.lookup ref d.defs with
  | none => none
  | some def0 =>
    match deepCopy def0.schema with
    | .error _ => none
    | .ok s => some s

/-- Shallow embedding of `DefinitionsSchemaResolver.ResolveSchema`
(definitions.go lines 60-85): look the GVK up in the index, deep-copy the
found schema, then inline references into the copy using the table-backed
lookup closure. -/
def DefinitionsSchemaResolver.ResolveSchema (d : DefinitionsSchemaResolver) (fuel : Nat)
    (gvk : GVK) : Except PErr Schema :=
  match d.gvkToSchema gvk with
  | none => .error (.goErr (wrapErr ("cannot resolve " ++ gvkString gvk ++ ": ") ErrSchemaNotFound))
  | some s =>
    match deepCopy s with
    | .error e =>
      .error (.goErr (.base ("cannot deep copy schema for " ++ gvkString gvk ++ ": " ++ e.message)))
    | .ok result => populateRefs (staticSchemaOf d) fuel result

/-- The subtree positions `populateRefs` recurses into after the reference
step: the property schemas, the additional-properties schema and the items
schema. -/
def childrenOf : Schema → List Schema
  | .mk _ _ props aP it _ _ =>
    props.map Prod.snd ++
    (match aP with
     | some (_, some sub) => [sub]
     | _ => []) ++
    (match it with
     | some (some sub, _) => [sub]
     | _ => [])

mutual

/-- No node reachable through the inliner's traversal (the node itself, then
properties, additional properties and items, recursively) is a reference in
the sense of `refOf` — so no bare reference and no allOf-wrapped one. -/
def visitedRefFree : Schema → Bool
  | .mk r d props aP it aO ex =>
    (refOf (.mk r d props aP it aO ex)).isNone &&
    visitedRefFreeProps props &&
    (match aP with
     | some (_, some sub) => visitedRefFree sub
     | _ => true) &&
    (match it with
     | some (some sub, _) => visitedRefFree sub
     | _ => true)

/-- `visitedRefFree` over the properties table. -/
def visitedRefFreeProps : List (String × Schema) → Bool
  | [] => true
  | (_, p) :: rest => visitedRefFree p && visitedRefFreeProps rest

end

mutual

/-- The schema tree contains no reference indicator anywhere: not on the node
itself, nor in any nested position (properties, additional properties, both
items fields, allOf members). -/
def schemaRefFree : Schema → Bool
  | .mk r _ props aP it aO _ =>
    r.isNone &&
    schemaRefFreeProps props &&
    (match aP with
     | some (_, os) => optSchemaRefFree os
     | none => true) &&
    (match it with
     | some (os, ls) => optSchemaRefFree os && schemaRefFreeList ls
     | none => true) &&
    schemaRefFreeList aO

/-- `schemaRefFree` over the properties table. -/
def schemaRefFreeProps : List (String × Schema) → Bool
  | [] => true
  | (_, p) :: rest => schemaRefFree p && schemaRefFreeProps rest

/-- `schemaRefFree` over an optional nested schema. -/
def optSchemaRefFree : Option Schema → Bool
  | none => true
  | some s => schemaRefFree s

/-- `schemaRefFree` over a list of nested schemas. -/
def schemaRefFreeList : List Schema → Bool
  | [] => true
  | s :: rest => schemaRefFree s && schemaRefFreeList rest

end

mutual

/-- All reference strings the inliner can consult on this tree: the node's
own reference (per `refOf`, so including allOf-wrapped ones) and those of the
traversed subtrees. -/
def visitedRefs : Schema → List String
  | .mk r d props aP it aO ex =>
    (refOf (.mk r d props aP it aO ex)).toList ++
    visitedRefsProps props ++
    (match aP with
     | some (_, some sub) => visitedRefs sub
     | _ => []) ++
    (match it with
     | some (some sub, _) => visitedRefs sub
     | _ => [])

/-- `visitedRefs` over the properties table. -/
def visitedRefsProps : List (String × Schema) → List String
  | [] => []
  | (_, p) :: rest => visitedRefs p ++ visitedRefsProps rest

end

mutual

/-- Depth of the tree along the inliner's traversal positions; at least 1 on
every node. -/
def sDepth : Schema → Nat
  | .mk _ _ props aP it _ _ =>
    1 + max (sDepthProps props)
      (max
        (match aP with
         | some (_, some sub) => sDepth sub
         | _ => 0)
        (match it with
         | some (some sub, _) => sDepth sub
         | _ => 0))

/-- `sDepth` over the properties table. -/
def sDepthProps : List (String × Schema) → Nat
  | [] => 0
  | (_, p) :: rest => max (sDepth p) (sDepthProps rest)

end

/-- Fuel sufficient for `n` nested reference replacements when every lookup
target has depth at most `D`. -/
def fuelBound (D : Nat) : Nat → Nat
  | 0 => 0
  | n+1 => D + 1 + fuelBound D n

theorem inlineProps_err {f : Schema → Except PErr Schema} {ps : List (String × Schema)}
    {e : PErr} (h : inlineProps f ps = .error e) : ∃ p ∈ ps, f p.2 = .error e := by
  induction ps with
  | nil => simp [inlineProps] at h
  | cons hd tl ih =>
    obtain ⟨n, p⟩ := hd
    rw [inlineProps] at h
    cases hfp : f p with
    | error e2 =>
      simp only [hfp] at h
      cases h
      exact ⟨(n, p), by simp, hfp⟩
    | ok p2 =>
      simp only [hfp] at h
      cases hrest : inlineProps f tl with
      | error e2 =>
        simp only [hrest] at h
        cases h
        obtain ⟨q, hq, hfq⟩ := ih hrest
        exact ⟨q, by simp [hq], hfq⟩
      | ok rest2 =>
        simp only [hrest] at h
        cases h

theorem inlineProps_ok_mem {f : Schema → Except PErr Schema} {ps qs : List (String × Schema)}
    (h : inlineProps f ps = .ok qs) : ∀ q ∈ qs, ∃ p ∈ ps, f p.2 = .ok q.2 := by
  induction ps generalizing qs with
  | nil =>
    simp only [inlineProps] at h
    cases h
    intro q hq
    cases hq
  | cons hd tl ih =>
    obtain ⟨n, p⟩ := hd
    rw [inlineProps] at h
    cases hfp : f p with
    | error e2 => simp only [hfp] at h; cases h
    | ok p2 =>
      simp only [hfp] at h
      cases hrest : inlineProps f tl with
      | error e2 => simp only [hrest] at h; cases h
      | ok rest2 =>
        simp only [hrest] at h
        cases h
        intro q hq
        rcases List.mem_cons.mp hq with hq1 | hq2
        · exact ⟨(n, p), by simp, by rw [hq1]; exact hfp⟩
        · obtain ⟨p3, hp3, hfp3⟩ := ih hrest q hq2
          exact ⟨p3, by simp [hp3], hfp3⟩

theorem inlineProps_id {f : Schema → Except PErr Schema} {ps : List (String × Schema)}
    (h : ∀ p ∈ ps, f p.2 = .ok p.2) : inlineProps f ps = .ok ps := by
  induction ps with
  | nil => rfl
  | cons hd tl ih =>
    obtain ⟨n, p⟩ := hd
    rw [inlineProps]
    rw [h (n, p) (by simp)]
    rw [ih (fun q hq => h q (by simp [hq]))]

theorem inlineAddProps_err {f : Schema → Except PErr Schema}
    {aP : Option (Bool × Option Schema)} {e : PErr} (h : inlineAddProps f aP = .error e) :
    ∃ b sub, aP = some (b, some sub) ∧ f sub = .error e := by
  match aP with
  | some (b, some sub) =>
    rw [inlineAddProps] at h
    cases hfs : f sub with
    | error e2 =>
      simp only [hfs] at h
      cases h
      exact ⟨b, sub, rfl, hfs⟩
    | ok s2 => simp only [hfs] at h; cases h
  | some (b, none) => simp [inlineAddProps] at h
  | none => simp [inlineAddProps] at h

theorem inlineItems_err {f : Schema → Except PErr Schema}
    {it : Option (Option Schema × List Schema)} {e : PErr} (h : inlineItems f it = .error e) :
    ∃ ls sub, it = some (some sub, ls) ∧ f sub = .error e := by
  match it with
  | some (some sub, ls) =>
    rw [inlineItems] at h
    cases hfs : f sub with
    | error e2 =>
      simp only [hfs] at h
      cases h
      exact ⟨ls, sub, rfl, hfs⟩
    | ok s2 => simp only [hfs] at h; cases h
  | some (none, ls) => simp [inlineItems] at h
  | none => simp [inlineItems] at h

theorem inlineChildren_ok_elim {f : Schema → Except PErr Schema} {s res : Schema}
    (h : inlineChildren f s = .ok res) :
    ∃ props2 aP2 it2,
      inlineProps f s.properties = .ok props2 ∧
      inlineAddProps f s.additionalProperties = .ok aP2 ∧
      inlineItems f s.items = .ok it2 ∧
      res = Schema.mk s.ref s.description props2 aP2 it2 s.allOf s.extensions := by
  cases s with
  | mk r d props aP it aO ex =>
    rw [inlineChildren] at h
    cases hp : inlineProps f props with
    | error e => simp only [hp] at h; cases h
    | ok props2 =>
      simp only [hp] at h
      cases ha : inlineAddProps f aP with
      | error e => simp only [ha] at h; cases h
      | ok aP2 =>
        simp only [ha] at h
        cases hi : inlineItems f it with
        | error e => simp only [hi] at h; cases h
        | ok it2 =>
          simp only [hi] at h
          cases h
          exact ⟨props2, aP2, it2, hp, ha, hi, rfl⟩

theorem inlineChildren_err {f : Schema → Except PErr Schema} {s : Schema} {e : PErr}
    (h : inlineChildren f s = .error e) : ∃ c ∈ childrenOf s, f c = .error e := by
  cases s with
  | mk r d props aP it aO ex =>
    rw [inlineChildren] at h
    cases hp : inlineProps f props with
    | error e2 =>
      simp only [hp] at h
      cases h
      obtain ⟨p, hp2, hfp⟩ := inlineProps_err hp
      refine ⟨p.2, ?_, hfp⟩
      simp only [childrenOf, List.mem_append]
      exact Or.inl (Or.inl (List.mem_map_of_mem Prod.snd hp2))
    | ok props2 =>
      simp only [hp] at h
      cases ha : inlineAddProps f aP with
      | error e2 =>
        simp only [ha] at h
        cases h
        obtain ⟨b, sub, haP, hfs⟩ := inlineAddProps_err ha
        refine ⟨sub, ?_, hfs⟩
        simp [childrenOf, haP]
      | ok aP2 =>
        simp only [ha] at h
        cases hi : inlineItems f it with
        | error e2 =>
          simp only [hi] at h
          cases h
          obtain ⟨ls, sub, hit, hfs⟩ := inlineItems_err hi
          refine ⟨sub, ?_, hfs⟩
          simp [childrenOf, hit]
        | ok it2 => simp only [hi] at h; cases h

theorem refOf_mk (r d : Option String) (props : List (String × Schema))
    (aP : Option (Bool × Option Schema)) (it : Option (Option Schema × List Schema))
    (aO : List Schema) (ex : List (String × ExtValue)) :
    refOf (.mk r d props aP it aO ex) =
      (match r with
       | some s => some s
       | none => refOfList aO) := by
  rw [refOf.eq_def]

theorem refOf_depends_on_ref_allOf (r d d2 : Option String) (props props2 : List (String × Schema))
    (aP aP2 : Option (Bool × Option Schema)) (it it2 : Option (Option Schema × List Schema))
    (aO : List Schema) (ex ex2 : List (String × ExtValue)) :
    refOf (.mk r d props aP it aO ex) = refOf (.mk r d2 props2 aP2 it2 aO ex2) := by
  rw [refOf_mk, refOf_mk]

theorem schemaRefFree_mk (r d : Option String) (props : List (String × Schema))
    (aP : Option (Bool × Option Schema)) (it : Option (Option Schema × List Schema))
    (aO : List Schema) (ex : List (String × ExtValue)) :
    schemaRefFree (.mk r d props aP it aO ex) =
      (r.isNone &&
       schemaRefFreeProps props &&
       (match aP with
        | some (_, os) => optSchemaRefFree os
        | none => true) &&
       (match it with
        | some (os, ls) => optSchemaRefFree os && schemaRefFreeList ls
        | none => true) &&
       schemaRefFreeList aO) := by
  rw [schemaRefFree.eq_def]

mutual

theorem refOf_none_of_refFree : ∀ s : Schema, schemaRefFree s = true → refOf s = none
  | .mk r d props aP it aO ex, h => by
    rw [schemaRefFree_mk] at h
    simp only [Bool.and_eq_true] at h
    rw [refOf_mk]
    cases r with
    | some rs => simp at h
    | none => exact refOfList_none_of_refFree aO h.2

theorem refOfList_none_of_refFree : ∀ l : List Schema, schemaRefFreeList l = true → refOfList l = none
  | [], _ => rfl
  | s :: rest, h => by
    rw [schemaRefFreeList.eq_def] at h
    simp only [Bool.and_eq_true] at h
    show (match refOf s with
          | some r => some r
          | none => refOfList rest) = none
    rw [refOf_none_of_refFree s h.1]
    exact refOfList_none_of_refFree rest h.2

end

theorem schemaRefFreeProps_mem {props : List (String × Schema)}
    (h : schemaRefFreeProps props = true) : ∀ p ∈ props, schemaRefFree p.2 = true := by
  induction props with
  | nil => intro p hp; cases hp
  | cons hd tl ih =>
    obtain ⟨n, q⟩ := hd
    rw [schemaRefFreeProps.eq_def] at h
    simp only [Bool.and_eq_true] at h
    intro p hp
    rcases List.mem_cons.mp hp with h1 | h2
    · rw [h1]; exact h.1
    · exact ih h.2 p h2

theorem sDepth_mk (r d : Option String) (props : List (String × Schema))
    (aP : Option (Bool × Option Schema)) (it : Option (Option Schema × List Schema))
    (aO : List Schema) (ex : List (String × ExtValue)) :
    sDepth (.mk r d props aP it aO ex) =
      1 + max (sDepthProps props)
        (max
          (match aP with
           | some (_, some sub) => sDepth sub
           | _ => 0)
          (match it with
           | some (some sub, _) => sDepth sub
           | _ => 0)) := by
  rw [sDepth.eq_def]

theorem sDepthProps_mem {props : List (String × Schema)} {p : String × Schema}
    (hp : p ∈ props) : sDepth p.2 ≤ sDepthProps props := by
  induction props with
  | nil => cases hp
  | cons hd tl ih =>
    rw [sDepthProps.eq_def]
    rcases List.mem_cons.mp hp with h1 | h2
    · rw [← h1]
      exact Nat.le_max_left _ _
    · exact Nat.le_trans (ih h2) (Nat.le_max_right _ _)

theorem sDepth_children {c : Schema} {r d : Option String} {props : List (String × Schema)}
    {aP : Option (Bool × Option Schema)} {it : Option (Option Schema × List Schema)}
    {aO : List Schema} {ex : List (String × ExtValue)}
    (hc : c ∈ childrenOf (.mk r d props aP it aO ex)) :
    sDepth c < sDepth (.mk r d props aP it aO ex) := by
  rw [sDepth_mk]
  simp only [childrenOf, List.mem_append] at hc
  rcases hc with (hc1 | hc2) | hc3
  · obtain ⟨p, hp, hpc⟩ := List.mem_map.mp hc1
    have h1 := sDepthProps_mem hp
    rw [hpc] at h1
    have h2 := Nat.le_max_left (sDepthProps props)
      (max
        (match aP with
         | some (_, some sub) => sDepth sub
         | _ => 0)
        (match it with
         | some (some sub, _) => sDepth sub
         | _ => 0))
    omega
  · rcases aP with _ | ⟨b, os⟩
    · simp at hc2
    rcases os with _ | sub
    · simp at hc2
    simp only [List.mem_singleton] at hc2
    subst hc2
    have h2 : sDepth c ≤
        max
          (match (some (b, some c) : Option (Bool × Option Schema)) with
           | some (_, some sub) => sDepth sub
           | _ => 0)
          (match it with
           | some (some sub, _) => sDepth sub
           | _ => 0) := Nat.le_max_left _ _
    have h3 := Nat.le_max_right (sDepthProps props)
      (max
        (match (some (b, some c) : Option (Bool × Option Schema)) with
         | some (_, some sub) => sDepth sub
         | _ => 0)
        (match it with
         | some (some sub, _) => sDepth sub
         | _ => 0))
    omega
  · rcases it with _ | ⟨os, ls⟩
    · simp at hc3
    rcases os with _ | sub
    · simp at hc3
    simp only [List.mem_singleton] at hc3
    subst hc3
    have h2 : sDepth c ≤
        max
          (match aP with
           | some (_, some sub) => sDepth sub
           | _ => 0)
          (match (some (some c, ls) : Option (Option Schema × List Schema)) with
           | some (some sub, _) => sDepth sub
           | _ => 0) := Nat.le_max_right _ _
    have h3 := Nat.le_max_right (sDepthProps props)
      (max
        (match aP with
         | some (_, some sub) => sDepth sub
         | _ => 0)
        (match (some (some c, ls) : Option (Option Schema × List Schema)) with
         | some (some sub, _) => sDepth sub
         | _ => 0))
    omega

theorem sDepth_pos (s : Schema) : 1 ≤ sDepth s := by
  cases s with
  | mk r d props aP it aO ex =>
    rw [sDepth_mk]
    omega

theorem visitedRefs_mk (r d : Option String) (props : List (String × Schema))
    (aP : Option (Bool × Option Schema)) (it : Option (Option Schema × List Schema))
    (aO : List Schema) (ex : List (String × ExtValue)) :
    visitedRefs (.mk r d props aP it aO ex) =
      (refOf (.mk r d props aP it aO ex)).toList ++
      visitedRefsProps props ++
      (match aP with
       | some (_, some sub) => visitedRefs sub
       | _ => []) ++
      (match it with
       | some (some sub, _) => visitedRefs sub
       | _ => []) := by
  rw [visitedRefs.eq_def]

theorem refOf_mem_visitedRefs {s : Schema} {r : String} (h : refOf s = some r) :
    r ∈ visitedRefs s := by
  cases s with
  | mk r0 d props aP it aO ex =>
    rw [visitedRefs_mk, h]
    simp

theorem visitedRefsProps_mem {props : List (String × Schema)} {p : String × Schema}
    (hp : p ∈ props) {rr : String} (hr : rr ∈ visitedRefs p.2) :
    rr ∈ visitedRefsProps props := by
  induction props with
  | nil => cases hp
  | cons hd tl ih =>
    rw [visitedRefsProps.eq_def]
    obtain ⟨n, q⟩ := hd
    simp only [List.mem_append]
    rcases List.mem_cons.mp hp with h1 | h2
    · left
      rw [h1] at hr
      exact hr
    · right
      exact ih h2

theorem visitedRefs_children {c : Schema} {r d : Option String}
    {props : List (String × Schema)} {aP : Option (Bool × Option Schema)}
    {it : Option (Option Schema × List Schema)} {aO : List Schema}
    {ex : List (String × ExtValue)}
    (hc : c ∈ childrenOf (.mk r d props aP it aO ex)) {rr : String}
    (hr : rr ∈ visitedRefs c) : rr ∈ visitedRefs (.mk r d props aP it aO ex) := by
  rw [visitedRefs_mk]
  simp only [List.mem_append]
  simp only [childrenOf, List.mem_append] at hc
  rcases hc with (hc1 | hc2) | hc3
  · obtain ⟨p, hp, hpc⟩ := List.mem_map.mp hc1
    left; left; right
    exact visitedRefsProps_mem hp (by rw [hpc]; exact hr)
  · rcases aP with _ | ⟨b, os⟩
    · simp at hc2
    rcases os with _ | sub
    · simp at hc2
    simp only [List.mem_singleton] at hc2
    subst hc2
    left; right
    exact hr
  · rcases it with _ | ⟨os, ls⟩
    · simp at hc3
    rcases os with _ | sub
    · simp at hc3
    simp only [List.mem_singleton] at hc3
    subst hc3
    right
    exact hr

theorem visitedRefFree_mk (r d : Option String) (props : List (String × Schema))
    (aP : Option (Bool × Option Schema)) (it : Option (Option Schema × List Schema))
    (aO : List Schema) (ex : List (String × ExtValue)) :
    visitedRefFree (.mk r d props aP it aO ex) =
      ((refOf (.mk r d props aP it aO ex)).isNone &&
       visitedRefFreeProps props &&
       (match aP with
        | some (_, some sub) => visitedRefFree sub
        | _ => true) &&
       (match it with
        | some (some sub, _) => visitedRefFree sub
        | _ => true)) := by
  rw [visitedRefFree.eq_def]

theorem visitedRefFreeProps_of_forall {props : List (String × Schema)}
    (h : ∀ p ∈ props, visitedRefFree p.2 = true) : visitedRefFreeProps props = true := by
  induction props with
  | nil => rfl
  | cons hd tl ih =>
    obtain ⟨n, q⟩ := hd
    rw [visitedRefFreeProps.eq_def]
    simp only [Bool.and_eq_true]
    exact ⟨h (n, q) (by simp), ih (fun p hp => h p (by simp [hp]))⟩

theorem optSchemaRefFree_some (s : Schema) : optSchemaRefFree (some s) = schemaRefFree s := by
  rw [optSchemaRefFree.eq_def]

theorem inlineAddProps_id {f : Schema → Except PErr Schema} {aP : Option (Bool × Option Schema)}
    (h : ∀ b sub, aP = some (b, some sub) → f sub = .ok sub) : inlineAddProps f aP = .ok aP := by
  match aP with
  | some (b, some sub) =>
    rw [inlineAddProps]
    rw [h b sub rfl]
  | some (b, none) => rfl
  | none => rfl

theorem inlineItems_id {f : Schema → Except PErr Schema} {it : Option (Option Schema × List Schema)}
    (h : ∀ ls sub, it = some (some sub, ls) → f sub = .ok sub) : inlineItems f it = .ok it := by
  match it with
  | some (some sub, ls) =>
    rw [inlineItems]
    rw [h ls sub rfl]
  | some (none, ls) => rfl
  | none => rfl

theorem populateRefs_refFree (lookup : String → Option Schema) :
    ∀ fuel s, schemaRefFree s = true → sDepth s ≤ fuel →
      populateRefs lookup fuel s = .ok s := by
  intro fuel
  induction fuel with
  | zero =>
    intro s h hd
    have := sDepth_pos s
    omega
  | succ f ih =>
    intro s h hd
    simp only [populateRefs, refOf_none_of_refFree s h]
    cases s with
    | mk r d props aP it aO ex =>
      rw [schemaRefFree_mk] at h
      simp only [Bool.and_eq_true] at h
      obtain ⟨⟨⟨⟨h1, h2⟩, h3⟩, h4⟩, h5⟩ := h
      rw [sDepth_mk] at hd
      obtain ⟨A, hA⟩ : ∃ A, (match aP with
          | some (_, some sub) => sDepth sub
          | _ => 0) = A := ⟨_, rfl⟩
      obtain ⟨I, hI⟩ : ∃ I, (match it with
          | some (some sub, _) => sDepth sub
          | _ => 0) = I := ⟨_, rfl⟩
      rw [hA, hI] at hd
      have hdp : sDepthProps props ≤ f := by
        have h6 := Nat.le_max_left (sDepthProps props) (max A I)
        omega
      have hda : A ≤ f := by
        have h6 := Nat.le_max_right (sDepthProps props) (max A I)
        have h7 := Nat.le_max_left A I
        omega
      have hdi : I ≤ f := by
        have h6 := Nat.le_max_right (sDepthProps props) (max A I)
        have h7 := Nat.le_max_right A I
        omega
      have hprops : ∀ p ∈ props, populateRefs lookup f p.2 = .ok p.2 := by
        intro p hp
        refine ih p.2 (schemaRefFreeProps_mem h2 p hp) ?_
        have := sDepthProps_mem hp
        omega
      have hap : ∀ b sub, aP = some (b, some sub) →
          populateRefs lookup f sub = .ok sub := by
        intro b sub haP
        simp only [haP] at h3 hA
        rw [optSchemaRefFree_some] at h3
        exact ih sub h3 (by omega)
      have hit : ∀ ls sub, it = some (some sub, ls) →
          populateRefs lookup f sub = .ok sub := by
        intro ls sub hit0
        simp only [hit0] at h4 hI
        simp only [Bool.and_eq_true] at h4
        rw [optSchemaRefFree_some] at h4
        exact ih sub h4.1 (by omega)
      simp only [inlineChildren, inlineProps_id hprops, inlineAddProps_id hap,
        inlineItems_id hit]

/-- C8: on a schema tree containing no reference indicator anywhere, the
reference inliner succeeds and returns the tree unchanged, for every lookup
function (and every fuel at least the tree's depth — in Go the recursion
depth is exactly bounded by that depth here, so the fuel hypothesis is the
embedding's rendering of plain termination); consequently running the
inliner twice gives the same result as running it once. -/
theorem populateRefs_refFree_noop (lookup : String → Option Schema) (fuel : Nat) (s : Schema)
    (h : schemaRefFree s = true) (hd : sDepth s ≤ fuel) :
    populateRefs lookup fuel s = .ok s ∧
    (populateRefs lookup fuel s).bind (populateRefs lookup fuel) =
      populateRefs lookup fuel s := by
  have h1 := populateRefs_refFree lookup fuel s h hd
  refine ⟨h1, ?_⟩
  rw [h1]
  show populateRefs lookup fuel s = _
  rw [h1]

theorem inlineAddProps_ok_visited {f : Schema → Except PErr Schema}
    {aP aP2 : Option (Bool × Option Schema)}
    (hf : ∀ c res2, f c = .ok res2 → visitedRefFree res2 = true)
    (h : inlineAddProps f aP = .ok aP2) :
    ∀ b sub, aP2 = some (b, some sub) → visitedRefFree sub = true := by
  match aP with
  | some (b0, some sub0) =>
    rw [inlineAddProps] at h
    cases hfs : f sub0 with
    | error e => simp only [hfs] at h; cases h
    | ok sub2 =>
      simp only [hfs] at h
      cases h
      intro b sub heq
      cases heq
      exact hf sub0 sub2 hfs
  | some (b0, none) =>
    simp only [inlineAddProps] at h
    cases h
    intro b sub heq
    cases heq
  | none =>
    simp only [inlineAddProps] at h
    cases h
    intro b sub heq
    cases heq

theorem inlineItems_ok_visited {f : Schema → Except PErr Schema}
    {it it2 : Option (Option Schema × List Schema)}
    (hf : ∀ c res2, f c = .ok res2 → visitedRefFree res2 = true)
    (h : inlineItems f it = .ok it2) :
    ∀ ls sub, it2 = some (some sub, ls) → visitedRefFree sub = true := by
  match it with
  | some (some sub0, ls0) =>
    rw [inlineItems] at h
    cases hfs : f sub0 with
    | error e => simp only [hfs] at h; cases h
    | ok sub2 =>
      simp only [hfs] at h
      cases h
      intro ls sub heq
      cases heq
      exact hf sub0 sub2 hfs
  | some (none, ls0) =>
    simp only [inlineItems] at h
    cases h
    intro ls sub heq
    cases heq
  | none =>
    simp only [inlineItems] at h
    cases h
    intro ls sub heq
    cases heq

theorem visitedRefFree_of_inlineChildren {f : Schema → Except PErr Schema} {t res : Schema}
    (href : refOf t = none)
    (hf : ∀ c res2, f c = .ok res2 → visitedRefFree res2 = true)
    (h : inlineChildren f t = .ok res) : visitedRefFree res = true := by
  obtain ⟨props2, aP2, it2, hp, ha, hi, hres⟩ := inlineChildren_ok_elim h
  cases t with
  | mk r0 d0 props0 aP0 it0 aO0 ex0 =>
    simp only [Schema.ref, Schema.description, Schema.properties, Schema.additionalProperties,
      Schema.items, Schema.allOf, Schema.extensions] at hp ha hi hres
    subst hres
    rw [visitedRefFree_mk]
    simp only [Bool.and_eq_true]
    refine ⟨⟨⟨?_, ?_⟩, ?_⟩, ?_⟩
    · rw [refOf_depends_on_ref_allOf r0 d0 d0 props2 props0 aP2 aP0 it2 it0 aO0 ex0 ex0]
      rw [href]
      rfl
    · refine visitedRefFreeProps_of_forall ?_
      intro q hq
      obtain ⟨p, hp0, hfp⟩ := inlineProps_ok_mem hp q hq
      exact hf p.2 q.2 hfp
    · have hv := inlineAddProps_ok_visited hf ha
      rcases aP2 with _ | ⟨b, os⟩
      · rfl
      rcases os with _ | sub
      · rfl
      exact hv b sub rfl
    · have hv := inlineItems_ok_visited hf hi
      rcases it2 with _ | ⟨os, ls⟩
      · rfl
      rcases os with _ | sub
      · rfl
      exact hv ls sub rfl

theorem populateRefs_visitedRefFree_core (lookup : String → Option Schema)
    (hT : ∀ r t, lookup r = some t → refOf t = none) :
    ∀ fuel s res, populateRefs lookup fuel s = .ok res → visitedRefFree res = true := by
  intro fuel
  induction fuel with
  | zero => intro s res h; cases h
  | succ f ih =>
    intro s res h
    rw [populateRefs] at h
    cases href : refOf s with
    | none =>
      simp only [href] at h
      exact visitedRefFree_of_inlineChildren href (fun c r2 h2 => ih c r2 h2) h
    | some r =>
      simp only [href] at h
      cases hlr : lookup r with
      | none => simp only [hlr] at h; cases h
      | some t =>
        simp only [hlr] at h
        exact visitedRefFree_of_inlineChildren (hT r t hlr) (fun c r2 h2 => ih c r2 h2) h

/-- Lookup with the finite acyclic reference graph A → B: the target of `A` is
itself the bare reference `B`, whose target is a plain schema. -/
def exLookupAB : String → Option Schema := fun r =>
  if r = "A" then some (.mk (some "B") none [] none none [] [])
  else if r = "B" then some (.mk none (some "done") [] none none [] [])
  else none

/-- C1 counterexample: under the finite acyclic lookup `exLookupAB`
(A's target is itself the reference B), a successful run of the inliner on
the node referencing `A` returns the intermediate reference node untouched:
the result's reference indicator is the non-empty `B`, because the Go code
replaces a reference once and never re-examines the replacement's own `Ref`
(inlining at a node is single-step, not transitive). -/
theorem populateRefs_transitive_cex :
    populateRefs exLookupAB 5 (Schema.mk (some "A") none [] none none [] []) =
      .ok (Schema.mk (some "B") none [] none none [] []) ∧
    Schema.ref (Schema.mk (some "B") none [] none none [] []) = some "B" :=
  ⟨rfl, rfl⟩

/-- C1 (amended): when every lookup target is itself not a reference (the
shape kube-openapi documents and definition tables guarantee), a successful
run of the inliner leaves a tree in which no node along the inliner's
traversal — the root, its properties, additional-properties and items
schemas, recursively — is a reference, neither bare nor allOf-wrapped. A
target that is itself a reference is left in place (see
`populateRefs_transitive_cex`). -/
theorem populateRefs_ok_visitedRefFree (lookup : String → Option Schema) (fuel : Nat)
    (s res : Schema) (hT : ∀ r t, lookup r = some t → refOf t = none)
    (h : populateRefs lookup fuel s = .ok res) : visitedRefFree res = true :=
  populateRefs_visitedRefFree_core lookup hT fuel s res h

/-- Concrete instance of `populateRefs_ok_visitedRefFree`: a lookup whose only
target is a plain non-reference schema. -/
theorem populateRefs_ok_visitedRefFree_witness :
    visitedRefFree (Schema.mk none (some "done") [] none none [] []) = true :=
  populateRefs_ok_visitedRefFree
    (fun r => if r = "B" then some (.mk none (some "done") [] none none [] []) else none) 5
    (Schema.mk (some "B") none [] none none [] [])
    (Schema.mk none (some "done") [] none none [] [])
    (fun r t h => by
      by_cases hr : r = "B"
      · simp only [hr, if_pos rfl] at h
        cases h
        rfl
      · simp only [if_neg hr] at h
        cases h)
    rfl

/-- Concrete instance of `populateRefs_refFree_noop`: a two-level tree with a
property, a description and an empty allOf list, inlined with fuel 3 under
the empty lookup. -/
theorem populateRefs_refFree_noop_witness :
    schemaRefFree (Schema.mk none (some "doc")
        [("a", Schema.mk none none [] none none [] [])] none none [] []) = true ∧
    sDepth (Schema.mk none (some "doc")
        [("a", Schema.mk none none [] none none [] [])] none none [] []) ≤ 3 ∧
    (populateRefs (fun _ => none) 3 (Schema.mk none (some "doc")
        [("a", Schema.mk none none [] none none [] [])] none none [] []) =
      .ok (Schema.mk none (some "doc")
        [("a", Schema.mk none none [] none none [] [])] none none [] []) ∧
     (populateRefs (fun _ => none) 3 (Schema.mk none (some "doc")
        [("a", Schema.mk none none [] none none [] [])] none none [] [])).bind
          (populateRefs (fun _ => none) 3) =
       populateRefs (fun _ => none) 3 (Schema.mk none (some "doc")
        [("a", Schema.mk none none [] none none [] [])] none none [] [])) :=
  ⟨by decide, by decide,
   populateRefs_refFree_noop (fun _ => none) 3
     (Schema.mk none (some "doc") [("a", Schema.mk none none [] none none [] [])] none none [] [])
     (by decide) (by decide)⟩

/-- C5: a node that is a reference — bare, or wrapped inside its allOf list —
is inlined by replacing its entire content: two nodes carrying the same
reference string (in either form) run to equal results, and on success all
non-traversed fields of the result (reference indicator, description, allOf,
extensions) are those of the looked-up target, so no sibling field of the
original node, such as a description placed alongside the wrapped reference,
survives. -/
theorem populateRefs_wrapped_ref_equiv (lookup : String → Option Schema) (fuel : Nat)
    (s1 s2 : Schema) (r : String) (h1 : refOf s1 = some r) (h2 : refOf s2 = some r) :
    populateRefs lookup fuel s1 = populateRefs lookup fuel s2 ∧
    (∀ f t res, fuel = f + 1 → lookup r = some t →
      populateRefs lookup fuel s1 = .ok res →
      res.ref = t.ref ∧ res.description = t.description ∧ res.allOf = t.allOf ∧
      res.extensions = t.extensions) := by
  cases fuel with
  | zero =>
    constructor
    · rfl
    · intro f t res hf
      exact absurd hf (by omega)
  | succ f0 =>
    constructor
    · simp only [populateRefs, h1, h2]
    · intro f t res hf hlr hok
      simp only [populateRefs, h1, hlr] at hok
      obtain ⟨props2, aP2, it2, hp, ha, hi, hres⟩ := inlineChildren_ok_elim hok
      subst hres
      cases t with
      | mk r0 d0 props0 aP0 it0 aO0 ex0 =>
        exact ⟨rfl, rfl, rfl, rfl⟩

/-- Concrete instance of `populateRefs_wrapped_ref_equiv`: the reference `B`
wrapped in an allOf list next to a sibling description runs to the same
result as the bare reference `B`, and the result's description is the
target's, not the sibling one. -/
theorem populateRefs_wrapped_ref_equiv_witness :
    populateRefs exLookupAB 5
        (Schema.mk none (some "sibling")
          [] none none [Schema.mk (some "B") none [] none none [] []] []) =
      populateRefs exLookupAB 5 (Schema.mk (some "B") none [] none none [] []) ∧
    (Schema.ref (Schema.mk none (some "done") [] none none [] []) =
        Schema.ref (Schema.mk none (some "done") [] none none [] []) ∧
      Schema.description (Schema.mk none (some "done") [] none none [] []) =
        Schema.description (Schema.mk none (some "done") [] none none [] []) ∧
      Schema.allOf (Schema.mk none (some "done") [] none none [] []) =
        Schema.allOf (Schema.mk none (some "done") [] none none [] []) ∧
      Schema.extensions (Schema.mk none (some "done") [] none none [] []) =
        Schema.extensions (Schema.mk none (some "done") [] none none [] [])) :=
  ⟨(populateRefs_wrapped_ref_equiv exLookupAB 5
      (Schema.mk none (some "sibling")
        [] none none [Schema.mk (some "B") none [] none none [] []] [])
      (Schema.mk (some "B") none [] none none [] []) "B" rfl rfl).1,
   (populateRefs_wrapped_ref_equiv exLookupAB 5
      (Schema.mk none (some "sibling")
        [] none none [Schema.mk (some "B") none [] none none [] []] [])
      (Schema.mk (some "B") none [] none none [] []) "B" rfl rfl).2 4
      (Schema.mk none (some "done") [] none none [] [])
      (Schema.mk none (some "done") [] none none [] []) rfl rfl rfl⟩

theorem fuelBound_le {D m n : Nat} (h : m ≤ n) : fuelBound D m ≤ fuelBound D n := by
  induction n with
  | zero =>
    have : m = 0 := by omega
    rw [this]
  | succ n2 ih =>
    by_cases hm : m ≤ n2
    · refine Nat.le_trans (ih hm) ?_
      rw [fuelBound]
      omega
    · have : m = n2 + 1 := by omega
      rw [this]

theorem populateRefs_terminates_core (lookup : String → Option Schema) (d : String → Nat)
    (D : Nat)
    (hT : ∀ r t, lookup r = some t →
      (∀ rr ∈ visitedRefs t, d rr < d r) ∧ sDepth t ≤ D) :
    ∀ fuel n s, (∀ rr ∈ visitedRefs s, d rr < n) →
      sDepth s + fuelBound D n ≤ fuel →
      populateRefs lookup fuel s ≠ .error .noFuel := by
  intro fuel
  induction fuel with
  | zero =>
    intro n s hrefs hle
    have := sDepth_pos s
    omega
  | succ f ih =>
    intro n s hrefs hle heq
    rw [populateRefs] at heq
    cases href : refOf s with
    | none =>
      simp only [href] at heq
      obtain ⟨c, hc, hfc⟩ := inlineChildren_err heq
      cases s with
      | mk r0 d0 props0 aP0 it0 aO0 ex0 =>
        refine absurd hfc (ih n c ?_ ?_)
        · intro rr hrr
          exact hrefs rr (visitedRefs_children hc hrr)
        · have h1 := sDepth_children hc
          omega
    | some r =>
      simp only [href] at heq
      cases hlr : lookup r with
      | none => simp only [hlr] at heq; cases heq
      | some t =>
        simp only [hlr] at heq
        obtain ⟨hrt, hdt⟩ := hT r t hlr
        have hdr : d r < n := hrefs r (refOf_mem_visitedRefs href)
        obtain ⟨c, hc, hfc⟩ := inlineChildren_err heq
        cases t with
        | mk r0 d0 props0 aP0 it0 aO0 ex0 =>
          refine absurd hfc (ih (d r) c ?_ ?_)
          · intro rr hrr
            exact hrt rr (visitedRefs_children hc hrr)
          · have h1 := sDepth_children hc
            have h2 : fuelBound D (d r + 1) ≤ fuelBound D n := fuelBound_le (by omega)
            rw [fuelBound] at h2
            have h3 := sDepth_pos s
            omega

/-- Target of the cyclic lookup: a schema whose property `x` is the reference
`A` again, closing the reference cycle A → A through a traversed position. -/
def cycTargetA : Schema :=
  .mk none none [("x", .mk (some "A") none [] none none [] [])] none none [] []

/-- Lookup whose reference graph has the cycle A → A. -/
def cycLookupA : String → Option Schema := fun r =>
  if r = "A" then some cycTargetA else none

theorem populateRefs_cyc_noFuel :
    ∀ fuel, populateRefs cycLookupA fuel (Schema.mk (some "A") none [] none none [] []) =
      .error .noFuel := by
  intro fuel
  induction fuel with
  | zero => rfl
  | succ f ih =>
    show inlineChildren (fun c => populateRefs cycLookupA f c) cycTargetA = .error .noFuel
    rw [show cycTargetA = Schema.mk none none
      [("x", Schema.mk (some "A") none [] none none [] [])] none none [] [] from rfl]
    simp only [inlineChildren, inlineProps, ih]

/-- C9: the inliner terminates on every input whose reference graph, as
induced by the lookup, is finite and acyclic: when the lookup admits a rank
function `d` strictly decreasing along references (such a ranking exists
exactly when the reachable reference graph of a finite lookup is acyclic)
with target depths bounded by `D`, a fuel of `sDepth s + fuelBound D n` is
never exhausted, i.e. the Go recursion depth is bounded. When the graph has
a reachable cycle the inliner does not terminate: on the canonical cycle
A → A every fuel whatsoever is exhausted — the cycle is not detected and
rejected (second conjunct). The deep-copy routine is total here (third
conjunct): schema values are finite trees, so the cyclic pointer structures
its Go comment warns about have no counterpart in the embedding. -/
theorem populateRefs_termination (lookup : String → Option Schema) (d : String → Nat)
    (D : Nat) (fuel n : Nat) (s : Schema)
    (hT : ∀ r t, lookup r = some t →
      (∀ rr ∈ visitedRefs t, d rr < d r) ∧ sDepth t ≤ D)
    (hrefs : ∀ rr ∈ visitedRefs s, d rr < n)
    (hfuel : sDepth s + fuelBound D n ≤ fuel) :
    populateRefs lookup fuel s ≠ .error .noFuel ∧
    (∀ fuel2, populateRefs cycLookupA fuel2
        (Schema.mk (some "A") none [] none none [] []) = .error .noFuel) ∧
    (∀ s2 : Schema, deepCopy s2 = .ok s2 ∨
        deepCopy s2 = .error (.base "json: unsupported type")) := by
  refine ⟨populateRefs_terminates_core lookup d D hT fuel n s hrefs hfuel,
    populateRefs_cyc_noFuel, ?_⟩
  intro s2
  by_cases h : schemaSerializable s2 = true
  · left
    rw [deepCopy, if_pos h]
  · right
    rw [deepCopy, if_neg h]

/-- Concrete instance of `populateRefs_termination`: the acyclic graph A → B
of `exLookupAB`, ranked by A ↦ 1, B ↦ 0, with target depth bound 1 and the
fuel the bound prescribes. -/
theorem populateRefs_termination_witness :
    populateRefs exLookupAB 5 (Schema.mk (some "A") none [] none none [] []) ≠
      .error .noFuel ∧
    (∀ fuel2, populateRefs cycLookupA fuel2
        (Schema.mk (some "A") none [] none none [] []) = .error .noFuel) ∧
    (∀ s2 : Schema, deepCopy s2 = .ok s2 ∨
        deepCopy s2 = .error (.base "json: unsupported type")) :=
  populateRefs_termination exLookupAB (fun r => if r = "A" then 1 else 0) 1 5 2
    (Schema.mk (some "A") none [] none none [] [])
    (by
      intro r t h
      simp only [exLookupAB] at h
      by_cases hr : r = "A"
      · subst hr
        rw [if_pos rfl] at h
        cases h
        exact ⟨by decide, by decide⟩
      · by_cases hb : r = "B"
        · subst hb
          rw [if_neg (by decide), if_pos rfl] at h
          cases h
          exact ⟨by decide, by decide⟩
        · rw [if_neg hr, if_neg hb] at h
          cases h)
    (by decide) (by decide)

theorem errorsIs_self (e : GoErr) : errorsIs e e = true := by
  cases e with
  | base m => simp [errorsIs]
  | wrap m c => simp [errorsIs]

theorem errorsIs_wrapErr (p : String) (c : GoErr) : errorsIs (wrapErr p c) c = true := by
  rw [wrapErr]
  rw [errorsIs]
  rw [errorsIs_self]
  simp

theorem populateRefs_goErr_shape (lookup : String → Option Schema) :
    ∀ fuel s e, populateRefs lookup fuel s = .error (.goErr e) →
      ∃ r, e = wrapErr ("internal error: cannot resolve Ref \"" ++ r ++ "\": ")
        ErrSchemaNotFound ∧ lookup r = none := by
  intro fuel
  induction fuel with
  | zero => intro s e h; cases h
  | succ f ih =>
    intro s e h
    rw [populateRefs] at h
    cases href : refOf s with
    | some r =>
      simp only [href] at h
      cases hlr : lookup r with
      | none =>
        simp only [hlr] at h
        cases h
        exact ⟨r, rfl, hlr⟩
      | some t =>
        simp only [hlr] at h
        obtain ⟨c, hc, hfc⟩ := inlineChildren_err h
        exact ih c e hfc
    | none =>
      simp only [href] at h
      obtain ⟨c, hc, hfc⟩ := inlineChildren_err h
      exact ih c e hfc

/-- C6 (amended): an inlining failure on a dangling reference yields exactly
the Go error `internal error: cannot resolve Ref %q: %w` wrapping
`ErrSchemaNotFound` — so its message carries the distinct `internal error`
marker, but `errors.Is` sees the very same `ErrSchemaNotFound` sentinel that
the Not Found errors of both resolvers wrap (conjuncts two and three give
their exact shapes): sentinel matching does not distinguish the internal
consistency failure from Not Found, only the message text does. -/
theorem resolver_err_kinds :
    (∀ (lookup : String → Option Schema) (fuel : Nat) (s : Schema) (e : GoErr),
      populateRefs lookup fuel s = .error (.goErr e) →
      (∃ r, e = wrapErr ("internal error: cannot resolve Ref \"" ++ r ++ "\": ")
          ErrSchemaNotFound ∧ lookup r = none) ∧
      errorsIs e ErrSchemaNotFound = true) ∧
    (∀ (d0 : DefinitionsSchemaResolver) (fuel : Nat) (gvk : GVK),
      d0.gvkToSchema gvk = none →
      d0.ResolveSchema fuel gvk = .error (.goErr (wrapErr
        ("cannot resolve " ++ gvkString gvk ++ ": ") ErrSchemaNotFound))) ∧
    (∀ (rc : ClientDiscoveryResolver) (paths : List (String × Except GoErr SchemaResponse))
        (fuel : Nat) (gvk : GVK),
      rc.pathsResult = .ok paths →
      List.lookup (resourcePathFromGV gvk) paths = none →
      rc.ResolveSchema fuel gvk = .error (.goErr (wrapErr
        ("cannot resolve group version \"" ++ groupVersionString gvk ++ "\": ")
        ErrSchemaNotFound))) := by
  refine ⟨?_, ?_, ?_⟩
  · intro lookup fuel s e h
    obtain ⟨r, hr, hlr⟩ := populateRefs_goErr_shape lookup fuel s e h
    refine ⟨⟨r, hr, hlr⟩, ?_⟩
    rw [hr]
    exact errorsIs_wrapErr _ _
  · intro d0 fuel gvk h
    simp only [DefinitionsSchemaResolver.ResolveSchema, h]
  · intro rc paths fuel gvk hp hl
    simp only [ClientDiscoveryResolver.ResolveSchema, hp, hl]

/-- The GVK extension value declaring the core/v1 Pod kind, as decoded from
the wire. -/
def podExtObj : ExtValue :=
  .obj [("group", .str ""), ("version", .str "v1"), ("kind", .str "Pod")]

/-- A components schema for Pod whose `spec` property is a dangling reference:
the document claims self-consistency but `Missing` is not among its
components. -/
def podDiscSchema : Schema :=
  .mk none none
    [("spec", .mk (some "#/components/schemas/Missing") none [] none none [] [])]
    none none [] [(extGVK, .arr [podExtObj])]

/-- The decoded document for path `api/v1` containing only `podDiscSchema`. -/
def discRespEx : SchemaResponse := ⟨[("io.k8s.Pod", podDiscSchema)]⟩

/-- A discovery client exposing exactly the core/v1 document `discRespEx`. -/
def discClientEx : ClientDiscoveryResolver := ⟨.ok [("api/v1", .ok discRespEx)]⟩

/-- The GVK of the core/v1 Pod kind. -/
def podGVK : GVK := ⟨"", "v1", "Pod"⟩

/-- C6 counterexample: resolving Pod against `discClientEx` fails on the
dangling `$ref` with the `internal error: cannot resolve Ref` error — and
`errors.Is` finds `ErrSchemaNotFound` in it, exactly as it does in the error
for a GVK that is absent altogether: by the sentinel that the code itself
uses to classify error kinds, the internal consistency failure IS a Not
Found error, so callers cannot distinguish the two kinds, except by
comparing message text (final conjunct). -/
theorem resolver_err_kinds_cex :
    discClientEx.ResolveSchema 5 podGVK = .error (.goErr (wrapErr
      ("internal error: cannot resolve Ref \"#/components/schemas/Missing\": ")
      ErrSchemaNotFound)) ∧
    errorsIs (wrapErr
      ("internal error: cannot resolve Ref \"#/components/schemas/Missing\": ")
      ErrSchemaNotFound) ErrSchemaNotFound = true ∧
    discClientEx.ResolveSchema 5 ⟨"", "v1", "Other"⟩ = .error (.goErr (wrapErr
      ("cannot resolve group version kind \"/v1, Kind=Other\": ") ErrSchemaNotFound)) ∧
    errorsIs (wrapErr ("cannot resolve group version kind \"/v1, Kind=Other\": ")
      ErrSchemaNotFound) ErrSchemaNotFound = true ∧
    GoErr.message (wrapErr
        ("internal error: cannot resolve Ref \"#/components/schemas/Missing\": ")
        ErrSchemaNotFound) ≠
      GoErr.message (wrapErr ("cannot resolve group version kind \"/v1, Kind=Other\": ")
        ErrSchemaNotFound) :=
  ⟨rfl, by decide, rfl, by decide, by decide⟩

/-- Concrete instance of `resolver_err_kinds`: the dangling-ref failure of
`discClientEx`, a static resolver with an empty index, and a discovery
client whose path table is empty. -/
theorem resolver_err_kinds_witness :
    ((∃ r, wrapErr ("internal error: cannot resolve Ref \"#/components/schemas/Missing\": ")
          ErrSchemaNotFound =
        wrapErr ("internal error: cannot resolve Ref \"" ++ r ++ "\": ") ErrSchemaNotFound ∧
        discoverySchemaOf discRespEx r = none) ∧
      errorsIs (wrapErr ("internal error: cannot resolve Ref \"#/components/schemas/Missing\": ")
        ErrSchemaNotFound) ErrSchemaNotFound = true) ∧
    DefinitionsSchemaResolver.ResolveSchema ⟨[], fun _ => none⟩ 5 podGVK =
      .error (.goErr (wrapErr ("cannot resolve " ++ gvkString podGVK ++ ": ")
        ErrSchemaNotFound)) ∧
    ClientDiscoveryResolver.ResolveSchema ⟨.ok []⟩ 5 podGVK =
      .error (.goErr (wrapErr
        ("cannot resolve group version \"" ++ groupVersionString podGVK ++ "\": ")
        ErrSchemaNotFound)) :=
  ⟨resolver_err_kinds.1 (discoverySchemaOf discRespEx) 4
      (Schema.mk (some "#/components/schemas/Missing") none [] none none [] []) _ rfl,
   resolver_err_kinds.2.1 ⟨[], fun _ => none⟩ 5 podGVK rfl,
   resolver_err_kinds.2.2 ⟨.ok []⟩ [] 5 podGVK rfl rfl⟩

theorem gvkListOfExt_none {xs : List ExtValue} (h : ∃ x ∈ xs, gvkOfExtObj x = none) :
    gvkListOfExt xs = none := by
  induction xs with
  | nil => simp at h
  | cons hd tl ih =>
    obtain ⟨x, hx, hxo⟩ := h
    rw [gvkListOfExt]
    rcases List.mem_cons.mp hx with h1 | h2
    · rw [h1] at hxo
      rw [hxo]
    · cases hho : gvkOfExtObj hd with
      | none => rfl
      | some g =>
        rw [ih ⟨x, h2, hxo⟩]

/-- C2 (amended): the static resolver's `extensionsToGVKs` never fails and
degrades to the empty list on malformed input — an absent key, a value that
is not a sequence, or a sequence with any ill-shaped element (first three
conjuncts). The discovery resolver, however, extracts GVKs through a JSON
round trip (`Extensions.GetObject`) whose error `resolveType` propagates: a
present, serializable extension value that is neither null nor a sequence
makes extraction fail (final conjunct), and any such failure on one schema
aborts the scan of the whole document, preventing resolution of every other
type in it (fourth conjunct). -/
theorem extract_gvks_degradation :
    (∀ exts : List (String × ExtValue),
      List.lookup extGVK exts = none → extensionsToGVKs exts = []) ∧
    (∀ (exts : List (String × ExtValue)) (v : ExtValue),
      List.lookup extGVK exts = some v → (∀ xs, v ≠ .arr xs) →
      extensionsToGVKs exts = []) ∧
    (∀ (exts : List (String × ExtValue)) (xs : List ExtValue),
      List.lookup extGVK exts = some (.arr xs) → (∃ x ∈ xs, gvkOfExtObj x = none) →
      extensionsToGVKs exts = []) ∧
    (∀ (gvk : GVK) (name : String) (s : Schema) (rest : List (String × Schema)) (e : GoErr),
      getObjectGVKs s.extensions = .error e →
      resolveTypeIn gvk ((name, s) :: rest) = .error e) ∧
    (∀ (exts : List (String × ExtValue)) (v : ExtValue),
      List.lookup extGVK exts = some v → extValueSerializable v = true →
      v ≠ .null → (∀ xs, v ≠ .arr xs) →
      getObjectGVKs exts = .error
        (.base "json: cannot unmarshal value into Go value of type []schema.GroupVersionKind")) := by
  refine ⟨?_, ?_, ?_, ?_, ?_⟩
  · intro exts h
    simp only [extensionsToGVKs, h]
  · intro exts v h hv
    cases v with
    | arr ys => exact absurd rfl (hv ys)
    | null => simp only [extensionsToGVKs, h]
    | boolVal b => simp only [extensionsToGVKs, h]
    | num n => simp only [extensionsToGVKs, h]
    | str s => simp only [extensionsToGVKs, h]
    | obj fs => simp only [extensionsToGVKs, h]
    | foreign => simp only [extensionsToGVKs, h]
  · intro exts xs h hex
    simp only [extensionsToGVKs, h, gvkListOfExt_none hex]
  · intro gvk name s rest e h
    simp only [resolveTypeIn, h]
  · intro exts v hl hser hnull harr
    simp only [getObjectGVKs, hl, if_pos hser]
    cases v with
    | arr ys => exact absurd rfl (harr ys)
    | null => exact absurd rfl hnull
    | boolVal b => rfl
    | num n => rfl
    | str s => rfl
    | obj fs => rfl
    | foreign => rfl

/-- A components schema whose GVK extension value is malformed: a bare
string rather than a sequence. -/
def badExtSchema : Schema := .mk none none [] none none [] [(extGVK, .str "oops")]

/-- A well-formed components schema declaring the Pod GVK. -/
def goodPodSchema : Schema :=
  .mk none (some "pod") [] none none [] [(extGVK, .arr [podExtObj])]

/-- C2 counterexample: with the malformed-extension schema first in
iteration order and a perfectly well-formed Pod schema after it in the same
document, the discovery resolver's `resolveType` propagates the unmarshal
error instead of resolving Pod — GVK extraction in the discovery resolver
does fail, and one malformed entry does prevent resolving other types in the
same document (the second conjunct shows the same document without the
malformed entry resolves Pod fine). -/
theorem extract_gvks_error_cex :
    resolveType ⟨[("Bad", badExtSchema), ("Good", goodPodSchema)]⟩ podGVK =
      .error (.base "json: cannot unmarshal value into Go value of type []schema.GroupVersionKind") ∧
    resolveType ⟨[("Good", goodPodSchema)]⟩ podGVK = .ok goodPodSchema :=
  ⟨rfl, rfl⟩

/-- Concrete instance of `extract_gvks_degradation`: empty extensions, a
string-valued extension, a sequence with an element missing its fields, the
two-schema document with the malformed entry first, and the string-valued
extension pushed through `GetObject`. -/
theorem extract_gvks_degradation_witness :
    extensionsToGVKs [] = [] ∧
    extensionsToGVKs [(extGVK, ExtValue.str "oops")] = [] ∧
    extensionsToGVKs [(extGVK, ExtValue.arr [ExtValue.obj [("group", ExtValue.str "g")]])] = [] ∧
    resolveTypeIn podGVK [("Bad", badExtSchema), ("Good", goodPodSchema)] =
      .error (.base "json: cannot unmarshal value into Go value of type []schema.GroupVersionKind") ∧
    getObjectGVKs [(extGVK, ExtValue.str "oops")] = .error
      (.base "json: cannot unmarshal value into Go value of type []schema.GroupVersionKind") :=
  ⟨extract_gvks_degradation.1 [] rfl,
   extract_gvks_degradation.2.1 [(extGVK, ExtValue.str "oops")] (ExtValue.str "oops") rfl
     (fun _ h => ExtValue.noConfusion h),
   extract_gvks_degradation.2.2.1 [(extGVK, ExtValue.arr [ExtValue.obj [("group", ExtValue.str "g")]])]
     [ExtValue.obj [("group", ExtValue.str "g")]] rfl
     ⟨ExtValue.obj [("group", ExtValue.str "g")], List.mem_singleton.mpr rfl, rfl⟩,
   extract_gvks_degradation.2.2.2.1 podGVK "Bad" badExtSchema [("Good", goodPodSchema)]
     (.base "json: cannot unmarshal value into Go value of type []schema.GroupVersionKind") rfl,
   extract_gvks_degradation.2.2.2.2 [(extGVK, ExtValue.str "oops")] (ExtValue.str "oops") rfl rfl
     (fun h => ExtValue.noConfusion h) (fun _ h => ExtValue.noConfusion h)⟩

theorem insertGVK_fold {gvks : List GVK} {m : GVK → Option Schema} {s : Schema} {gvk : GVK} :
    (gvks.foldl (fun m2 g => insertGVK m2 g s) m) gvk =
      if gvk ∈ gvks then some s else m gvk := by
  induction gvks generalizing m with
  | nil => simp
  | cons g rest ih =>
    rw [List.foldl_cons, ih]
    by_cases hmem : gvk ∈ rest
    · rw [if_pos hmem, if_pos (by simp [hmem])]
    · rw [if_neg hmem, insertGVK]
      by_cases hg : gvk = g
      · rw [if_pos hg, if_pos (by simp [hg])]
      · rw [if_neg hg, if_neg (by simp [hg, hmem])]

theorem buildGVKIndex_not_declared (namer : String → String × List (String × ExtValue))
    (gvk : GVK) :
    ∀ (l : List (String × OpenAPIDefinition)) (m : GVK → Option Schema),
      (∀ nd ∈ l, gvk ∉ extensionsToGVKs (namer nd.1).2) →
      buildGVKIndex namer l m gvk = m gvk := by
  intro l
  induction l with
  | nil => intro m h; rfl
  | cons nd rest ih =>
    intro m h
    show buildGVKIndex namer rest
      ((extensionsToGVKs (namer nd.1).2).foldl (fun m3 g => insertGVK m3 g nd.2.schema) m)
      gvk = m gvk
    rw [ih _ (fun nd2 h2 => h nd2 (by simp [h2]))]
    rw [insertGVK_fold, if_neg (h nd (by simp))]

theorem buildGVKIndex_get (namer : String → String × List (String × ExtValue)) (gvk : GVK) :
    ∀ (defs : List (String × OpenAPIDefinition)) (m : GVK → Option Schema) (i : Nat)
      (hi : i < defs.length),
      gvk ∈ extensionsToGVKs (namer defs[i].1).2 →
      (∀ j (hj : j < defs.length), i < j → gvk ∉ extensionsToGVKs (namer defs[j].1).2) →
      buildGVKIndex namer defs m gvk = some defs[i].2.schema := by
  intro defs
  induction defs with
  | nil =>
    intro m i hi
    simp at hi
  | cons nd rest ih =>
    intro m i hi hdecl hlater
    show buildGVKIndex namer rest
      ((extensionsToGVKs (namer nd.1).2).foldl (fun m3 g => insertGVK m3 g nd.2.schema) m)
      gvk = some (nd :: rest)[i].2.schema
    cases i with
    | zero =>
      simp only [List.getElem_cons_zero] at hdecl ⊢
      rw [buildGVKIndex_not_declared namer gvk rest _ ?_]
      · rw [insertGVK_fold, if_pos hdecl]
      · intro nd2 hnd2
        obtain ⟨j, hj, hjeq⟩ := List.getElem_of_mem hnd2
        have h2 := hlater (j + 1) (by simp; omega) (by omega)
        simp only [List.getElem_cons_succ] at h2
        rw [hjeq] at h2
        exact h2
    | succ i2 =>
      simp only [List.getElem_cons_succ] at hdecl ⊢
      refine ih _ i2 (by simp at hi; omega) hdecl ?_
      intro j hj hij
      have h2 := hlater (j + 1) (by simp; omega) (by omega)
      simp only [List.getElem_cons_succ] at h2
      exact h2

/-- C3: after static-resolver construction, the GVK index maps every GVK
declared (through the namer's extensions) by the definition-table entry at
position `i` to that entry's schema, provided no later entry in iteration
order declares the same GVK — the later entry wins otherwise, by
`insertGVK_fold`'s overwrite semantics. Resolution for a GVK therefore
starts from the schema of the entry that declared it. -/
theorem static_gvk_index (namer : String → String × List (String × ExtValue))
    (defs : List (String × OpenAPIDefinition)) (gvk : GVK) (i : Nat) (hi : i < defs.length)
    (hdecl : gvk ∈ extensionsToGVKs (namer defs[i].1).2)
    (hlater : ∀ j (hj : j < defs.length), i < j → gvk ∉ extensionsToGVKs (namer defs[j].1).2) :
    (NewDefinitionsSchemaResolver namer defs).gvkToSchema gvk = some defs[i].2.schema :=
  buildGVKIndex_get namer gvk defs (fun _ => none) i hi hdecl hlater

/-- Namer for the witness table: `Pod` carries the Pod GVK extension, other
names carry none. -/
def exNamer : String → String × List (String × ExtValue) := fun n =>
  if n = "Pod" then ("Pod", [(extGVK, ExtValue.arr [podExtObj])]) else (n, [])

/-- Witness definition table: a Pod entry whose `spec` property references
the PodSpec entry. -/
def exDefs : List (String × OpenAPIDefinition) :=
  [("Pod", ⟨Schema.mk none none [("spec", Schema.mk (some "PodSpec") none [] none none [] [])]
      none none [] [], []⟩),
   ("PodSpec", ⟨Schema.mk none (some "the spec") [] none none [] [], []⟩)]

/-- Concrete instance of `static_gvk_index`: in `exDefs` the entry at index 0
declares the Pod GVK and the later entry declares nothing, so the index maps
Pod to the first entry's schema. -/
theorem static_gvk_index_witness :
    (NewDefinitionsSchemaResolver exNamer exDefs).gvkToSchema podGVK =
      some (Schema.mk none none
        [("spec", Schema.mk (some "PodSpec") none [] none none [] [])] none none [] []) :=
  static_gvk_index exNamer exDefs podGVK 0 (by decide) (by decide)
    (by
      intro j hj hij
      have : j = 1 := by
        have : exDefs.length = 2 := rfl
        omega
      subst this
      show podGVK ∉ extensionsToGVKs (exNamer "PodSpec").2
      decide)

/-- C7 (amended): a failure of the deep-copy round trip taken on the indexed
schema itself is surfaced to the caller as the copy-failure error
`cannot deep copy schema for %v: %v` (first conjunct). A failure of the
fresh copy taken inside the reference-lookup closure, however, is NOT
surfaced as a copy failure: the closure turns it into a lookup miss (second
conjunct), which `populateRefs` then reports as the unresolvable-reference
error wrapping `ErrSchemaNotFound` — see `deepCopy_closure_err_cex`. -/
theorem deepCopy_err_surface :
    (∀ (d0 : DefinitionsSchemaResolver) (fuel : Nat) (gvk : GVK) (s : Schema),
      d0.gvkToSchema gvk = some s → schemaSerializable s = false →
      d0.ResolveSchema fuel gvk = .error (.goErr (.base
        ("cannot deep copy schema for " ++ gvkString gvk ++ ": " ++
          GoErr.message (.base "json: unsupported type"))))) ∧
    (∀ (d0 : DefinitionsSchemaResolver) (ref : String) (def0 : OpenAPIDefinition),
      List.lookup ref d0.defs = some def0 → schemaSerializable def0.schema = false →
      staticSchemaOf d0 ref = none) := by
  constructor
  · intro d0 fuel gvk s h1 h2
    simp only [DefinitionsSchemaResolver.ResolveSchema, h1]
    rw [deepCopy, if_neg (by simp [h2])]
  · intro d0 ref def0 h1 h2
    simp only [staticSchemaOf, h1]
    rw [deepCopy, if_neg (by simp [h2])]

/-- Definition table whose `PodSpec` entry carries an extension value that
`json.Marshal` rejects, so deep-copying that entry fails. -/
def exDefsBad : List (String × OpenAPIDefinition) :=
  [("Pod", ⟨Schema.mk none none [("spec", Schema.mk (some "PodSpec") none [] none none [] [])]
      none none [] [], []⟩),
   ("PodSpec", ⟨Schema.mk none (some "the spec") [] none none [] [("weird", ExtValue.foreign)], []⟩)]

/-- The static resolver built over `exDefsBad`. -/
def exResolverBad : DefinitionsSchemaResolver := NewDefinitionsSchemaResolver exNamer exDefsBad

/-- C7 counterexample: in `exResolverBad` the `PodSpec` definition exists but
its deep copy fails (second conjunct); resolving Pod — whose `spec` property
references `PodSpec` — therefore fails, yet the surfaced error is the
unresolvable-reference error wrapping `ErrSchemaNotFound` (third conjunct),
not a copy failure: the lookup closure swallowed the copy error into a
lookup miss, converting it into the kind used for dangling references. -/
theorem deepCopy_closure_err_cex :
    List.lookup "PodSpec" exResolverBad.defs =
      some ⟨Schema.mk none (some "the spec") [] none none [] [("weird", ExtValue.foreign)], []⟩ ∧
    deepCopy (Schema.mk none (some "the spec") [] none none [] [("weird", ExtValue.foreign)]) =
      .error (.base "json: unsupported type") ∧
    exResolverBad.ResolveSchema 5 podGVK = .error (.goErr (wrapErr
      ("internal error: cannot resolve Ref \"PodSpec\": ") ErrSchemaNotFound)) ∧
    errorsIs (wrapErr ("internal error: cannot resolve Ref \"PodSpec\": ") ErrSchemaNotFound)
      ErrSchemaNotFound = true :=
  ⟨rfl, rfl, rfl, by decide⟩

/-- Concrete instance of `deepCopy_err_surface`: a resolver whose index maps
Pod straight to an unserializable schema (top-level copy failure surfaces),
and the `exResolverBad` closure lookup of `PodSpec` (closure copy failure
becomes a miss). -/
theorem deepCopy_err_surface_witness :
    DefinitionsSchemaResolver.ResolveSchema
        ⟨[], fun _ => some (Schema.mk none none [] none none [] [("weird", ExtValue.foreign)])⟩
        5 podGVK =
      .error (.goErr (.base ("cannot deep copy schema for " ++ gvkString podGVK ++ ": " ++
        GoErr.message (.base "json: unsupported type")))) ∧
    staticSchemaOf exResolverBad "PodSpec" = none :=
  ⟨deepCopy_err_surface.1
      ⟨[], fun _ => some (Schema.mk none none [] none none [] [("weird", ExtValue.foreign)])⟩
      5 podGVK (Schema.mk none none [] none none [] [("weird", ExtValue.foreign)]) rfl rfl,
   deepCopy_err_surface.2 exResolverBad "PodSpec"
      ⟨Schema.mk none (some "the spec") [] none none [] [("weird", ExtValue.foreign)], []⟩
      rfl rfl⟩

/-- C10: in the discovery resolver's lookup closure the fixed prefix
`#/components/schemas/` is removed exactly when the reference string starts
with it; otherwise the string is used verbatim as the key into the
document's components table, so such a reference resolves exactly when a
component with that literal name exists (third conjunct). -/
theorem discovery_ref_trim (resp : SchemaResponse) (ref : String) :
    (refPfx.data.isPrefixOf ref.data = true →
      discoverySchemaOf resp ref =
        List.lookup (⟨ref.data.drop refPfx.data.length⟩ : String) resp.schemas) ∧
    (refPfx.data.isPrefixOf ref.data = false →
      discoverySchemaOf resp ref = List.lookup ref resp.schemas) ∧
    (refPfx.data.isPrefixOf ref.data = false →
      (discoverySchemaOf resp ref).isSome = (List.lookup ref resp.schemas).isSome) := by
  refine ⟨?_, ?_, ?_⟩
  · intro h
    rw [discoverySchemaOf, goTrimPfx, if_pos h]
  · intro h
    rw [discoverySchemaOf, goTrimPfx, if_neg (by simp [h])]
  · intro h
    rw [discoverySchemaOf, goTrimPfx, if_neg (by simp [h])]

/-- Concrete instance of `discovery_ref_trim` against `discRespEx`: the
prefixed reference is looked up under the stripped name, and an unprefixed
reference string is looked up verbatim. -/
theorem discovery_ref_trim_witness :
    discoverySchemaOf discRespEx "#/components/schemas/io.k8s.Pod" =
      List.lookup (⟨("#/components/schemas/io.k8s.Pod" : String).data.drop
        refPfx.data.length⟩ : String) discRespEx.schemas ∧
    discoverySchemaOf discRespEx "io.k8s.Pod" =
      List.lookup "io.k8s.Pod" discRespEx.schemas :=
  ⟨(discovery_ref_trim discRespEx "#/components/schemas/io.k8s.Pod").1 (by decide),
   (discovery_ref_trim discRespEx "io.k8s.Pod").2.1 (by decide)⟩
